import Mathlib

/-!
Verification of the segment-parallel correction pipeline of EssayCorrector
(src/core/corrector.py, src/core/data_processor.py, src/config.py).

Strings are modelled as lists of unicode characters (`Str`).  Python string
primitives (strip, regular-expression substitutions used by the code, substring
search) are embedded as executable Lean functions; `json.loads` is embedded as
a fuel-based recursive-descent parser over the JSON grammar accepted by
Python's `json` module (numbers are kept as their source token, since no
behaviour of the pipeline depends on numeric values; `\uXXXX` escapes that form
lone surrogates are rejected, a corner Python accepts but which no execution
path of this program exercises).
-/

namespace EssayCorrector

abbrev Str := List Char

/-- Whitespace for Python `str.strip()` and the `\s` class, restricted to the
ASCII whitespace characters (the unicode space code points also matched by
Python never occur in the inputs considered here). -/
def pyIsSpace (c : Char) : Bool :=
  c = ' ' || c = '\t' || c = '\n' || c = '\r' || c = '\x0b' || c = '\x0c'

/-- Python `str.strip()`. -/
def pyStrip (s : Str) : Str :=
  ((s.dropWhile pyIsSpace).reverse.dropWhile pyIsSpace).reverse

/-- Control characters removed by step 5 of `preprocess_text`
(regex `[\x00-\x1F\x7F-\x9F]`). -/
def isCtrlChar (c : Char) : Bool :=
  c.toNat ≤ 0x1F || (0x7F ≤ c.toNat && c.toNat ≤ 0x9F)

/-- Collapse every maximal run of characters satisfying `pred` into the single
character `rep`; embeds `re.sub` with a `X+` pattern and a one-character
replacement. -/
def squashRuns (pred : Char → Bool) (rep : Char) : Str → Str
  | [] => []
  | a :: rest =>
    if pred a then
      match rest with
      | [] => [rep]
      | b :: _ =>
        if pred b then squashRuns pred rep rest
        else rep :: squashRuns pred rep rest
    else a :: squashRuns pred rep rest

/-- Step 4 of `preprocess_text`: `re.sub(r'\s+', ' ', paragraph)`. -/
def collapseSpaces (s : Str) : Str := squashRuns pyIsSpace ' ' s

/-- The punctuation class of step 6 of `preprocess_text`:
`。，！？；：,.!?;:`. -/
def dupPunctSet : Str := ("。，！？；：,.!?;:").toList

/-- Step 6 of `preprocess_text`: `re.sub(r'([。，！？；：,.!?;:])\1+', r'\1', p)`
collapses every run of two or more copies of the same character of the class
into one copy. -/
def dedupPunct : Str → Str
  | [] => []
  | a :: rest =>
    match rest with
    | [] => [a]
    | b :: _ =>
      if a = b ∧ a ∈ dupPunctSet then dedupPunct rest
      else a :: dedupPunct rest

/-- Step 7 of `preprocess_text`: `re.match(r'^\d+(\s*\d+)*$', p)`.  Over a
string free of newlines this regex matches exactly the non-empty strings of
digits and whitespace that begin and end with a digit (`\d` is modelled as the
ASCII digits). -/
def isPureDigitLine (p : Str) : Bool :=
  match p with
  | [] => false
  | c :: _ =>
    c.isDigit && (p.getLastD 'x').isDigit && p.all (fun d => d.isDigit || pyIsSpace d)

/-- Step 8 of `preprocess_text`: `re.match(r'^[-=_*]{5,}$', p)`. -/
def isSepLine (p : Str) : Bool :=
  decide (5 ≤ p.length) && p.all (fun c => c = '-' || c = '=' || c = '_' || c = '*')

/-- Step 9 of `preprocess_text`:
`re.match(r'^(https?://|www\.|file://|[a-zA-Z]:\\).+$', p)`; on a string with
no newline character `.+$` just requires at least one further character. -/
def isUrlLike (p : Str) : Bool :=
  (List.isPrefixOf (("http://").toList) p ∧ (("http://").toList).length < p.length) ||
  (List.isPrefixOf (("https://").toList) p ∧ (("https://").toList).length < p.length) ||
  (List.isPrefixOf (("www.").toList) p ∧ (("www.").toList).length < p.length) ||
  (List.isPrefixOf (("file://").toList) p ∧ (("file://").toList).length < p.length) ||
  (match p with
   | c :: ':' :: '\\' :: rest => c.isAlpha && !rest.isEmpty
   | _ => false)

/-- The sentence terminators of step 10 of `preprocess_text`: `.。!！?？;；`. -/
def terminatorSet : Str := (".。!！?？;；").toList

end EssayCorrector

namespace EssayCorrector

/-- The opening brace character (written via its code point). -/
def lbrace : Char := Char.ofNat 123

/-- The closing brace character (written via its code point). -/
def rbrace : Char := Char.ofNat 125

/-- JSON values as produced by Python `json.loads`.  Numeric literals keep
their source token: nothing in the pipeline inspects numeric values, and this
avoids modelling floating point. -/
inductive JVal where
  | jnull
  | jbool (b : Bool)
  | jnum (raw : Str)
  | jstr (s : Str)
  | jarr (items : List JVal)
  | jobj (fields : List (Str × JVal))

/-- Whitespace skipped by Python's JSON lexer (`' \t\n\r'`). -/
def jsonWsChar (c : Char) : Bool :=
  c = ' ' || c = '\t' || c = '\n' || c = '\r'

/-- Skip JSON whitespace. -/
def skipWs (s : Str) : Str := s.dropWhile jsonWsChar

/-- Value of one hexadecimal digit. -/
def hexVal? (c : Char) : Option Nat :=
  if c.isDigit then some (c.toNat - ('0').toNat)
  else if 'a' ≤ c ∧ c ≤ 'f' then some (c.toNat - ('a').toNat + 10)
  else if 'A' ≤ c ∧ c ≤ 'F' then some (c.toNat - ('A').toNat + 10)
  else none

/-- Parse four hexadecimal digits. -/
def parseHex4 : Str → Option (Nat × Str)
  | a :: b :: c :: d :: rest => do
    let x ← hexVal? a
    let y ← hexVal? b
    let z ← hexVal? c
    let w ← hexVal? d
    some ((((x * 16 + y) * 16 + z) * 16 + w : Nat), rest)
  | _ => none

/-- Parse a `\uXXXX` escape (the `\u` already consumed), combining surrogate
pairs as Python does.  Lone surrogates are rejected (Python would keep them,
but Lean characters are unicode scalar values; no execution path of the
program reaches this corner). -/
def parseUEscape (s : Str) : Option (Char × Str) := do
  let (v, rest) ← parseHex4 s
  if 0xD800 ≤ v ∧ v ≤ 0xDBFF then
    match rest with
    | '\\' :: 'u' :: rest2 => do
      let (w, rest3) ← parseHex4 rest2
      if 0xDC00 ≤ w ∧ w ≤ 0xDFFF then
        some (Char.ofNat (0x10000 + (v - 0xD800) * 0x400 + (w - 0xDC00)), rest3)
      else none
    | _ => none
  else if 0xDC00 ≤ v ∧ v ≤ 0xDFFF then none
  else some (Char.ofNat v, rest)

/-- Parse the body of a JSON string (the opening quote already consumed), up
to and including the closing quote.  Python's strict mode rejects raw control
characters below `0x20`. -/
def parseStrBody : Nat → Str → Option (Str × Str)
  | 0, _ => none
  | fuel + 1, s =>
    match s with
    | [] => none
    | '"' :: rest => some ([], rest)
    | '\\' :: e :: rest =>
      let step : Option (Char × Str) :=
        if e = '"' then some ('"', rest)
        else if e = '\\' then some ('\\', rest)
        else if e = '/' then some ('/', rest)
        else if e = 'b' then some ('\x08', rest)
        else if e = 'f' then some ('\x0c', rest)
        else if e = 'n' then some ('\n', rest)
        else if e = 'r' then some ('\r', rest)
        else if e = 't' then some ('\t', rest)
        else if e = 'u' then parseUEscape rest
        else none
      match step with
      | none => none
      | some (c, rest2) => (parseStrBody fuel rest2).map (fun p => (c :: p.1, p.2))
    | c :: rest =>
      if c.toNat < 0x20 then none
      else (parseStrBody fuel rest).map (fun p => (c :: p.1, p.2))

/-- Optional fraction and exponent parts of a JSON number token. -/
def parseNumTail (s : Str) : Str × Str :=
  let fr : Str × Str :=
    match s with
    | '.' :: r =>
      let ds := r.takeWhile Char.isDigit
      if ds.isEmpty then ([], s) else ('.' :: ds, r.drop ds.length)
    | _ => ([], s)
  let ex : Str × Str :=
    match fr.2 with
    | e :: r =>
      if e = 'e' ∨ e = 'E' then
        let sp : Str × Str :=
          match r with
          | '+' :: r2 => (['+'], r2)
          | '-' :: r2 => (['-'], r2)
          | _ => ([], r)
        let ds := sp.2.takeWhile Char.isDigit
        if ds.isEmpty then ([], fr.2) else (e :: (sp.1 ++ ds), sp.2.drop ds.length)
      else ([], fr.2)
    | [] => ([], fr.2)
  (fr.1 ++ ex.1, ex.2)

/-- Parse a JSON number token (`-?(0|[1-9][0-9]*)(\.[0-9]+)?([eE][+-]?[0-9]+)?`). -/
def parseNumToken (s : Str) : Option (Str × Str) :=
  let np : Str × Str :=
    match s with
    | '-' :: r => (['-'], r)
    | _ => ([], s)
  match np.2 with
  | c :: _ =>
    if c.isDigit then
      let ip := if c = '0' then ['0'] else np.2.takeWhile Char.isDigit
      let tl := parseNumTail (np.2.drop ip.length)
      some (np.1 ++ ip ++ tl.1, tl.2)
    else none
  | [] => none

mutual

/-- Parse one JSON value (Python `json.loads` grammar, including the `NaN`,
`Infinity` and `-Infinity` literals Python accepts by default). -/
def parseVal : Nat → Str → Option (JVal × Str)
  | 0, _ => none
  | fuel + 1, s0 =>
    let s := skipWs s0
    match s with
    | [] => none
    | c :: rest =>
      if c = '"' then
        (parseStrBody (fuel + 1) rest).map (fun p => (JVal.jstr p.1, p.2))
      else if c = '[' then
        let r := skipWs rest
        match r with
        | ']' :: r2 => some (JVal.jarr [], r2)
        | _ => (parseArrItems fuel r).map (fun p => (JVal.jarr p.1, p.2))
      else if c = lbrace then
        let r := skipWs rest
        match r with
        | d :: r2 =>
          if d = rbrace then some (JVal.jobj [], r2)
          else (parseObjItems fuel r).map (fun p => (JVal.jobj p.1, p.2))
        | [] => none
      else if List.isPrefixOf (("true").toList) s then some (JVal.jbool true, s.drop 4)
      else if List.isPrefixOf (("false").toList) s then some (JVal.jbool false, s.drop 5)
      else if List.isPrefixOf (("null").toList) s then some (JVal.jnull, s.drop 4)
      else if List.isPrefixOf (("NaN").toList) s then some (JVal.jnum (("NaN").toList), s.drop 3)
      else if List.isPrefixOf (("Infinity").toList) s then
        some (JVal.jnum (("Infinity").toList), s.drop 8)
      else if List.isPrefixOf (("-Infinity").toList) s then
        some (JVal.jnum (("-Infinity").toList), s.drop 9)
      else
        (parseNumToken s).map (fun p => (JVal.jnum p.1, p.2))

/-- Parse the items of a non-empty JSON array (the `[` and leading whitespace
already consumed), up to and including the closing `]`. -/
def parseArrItems : Nat → Str → Option (List JVal × Str)
  | 0, _ => none
  | fuel + 1, s =>
    match parseVal fuel s with
    | none => none
    | some (v, r) =>
      match skipWs r with
      | ',' :: r2 => (parseArrItems fuel r2).map (fun p => (v :: p.1, p.2))
      | ']' :: r2 => some ([v], r2)
      | _ => none

/-- Parse the members of a non-empty JSON object (the opening brace and
leading whitespace already consumed), up to and including the closing brace. -/
def parseObjItems : Nat → Str → Option (List (Str × JVal) × Str)
  | 0, _ => none
  | fuel + 1, s =>
    match skipWs s with
    | '"' :: rest =>
      match parseStrBody (fuel + 1) rest with
      | none => none
      | some (key, r) =>
        match skipWs r with
        | ':' :: r2 =>
          match parseVal fuel r2 with
          | none => none
          | some (v, r3) =>
            match skipWs r3 with
            | ',' :: r4 => (parseObjItems fuel r4).map (fun p => ((key, v) :: p.1, p.2))
            | d :: r4 => if d = rbrace then some ([(key, v)], r4) else none
            | [] => none
        | _ => none
    | _ => none

end

/-- Python `json.loads`: parse one value and require only whitespace after it.
The fuel `2 * length + 4` dominates the number of parser steps, every other
one of which consumes at least one character. -/
def pyJsonLoads (s : Str) : Option JVal :=
  match parseVal (2 * s.length + 4) s with
  | some (v, rest) => if (skipWs rest).isEmpty then some v else none
  | none => none

end EssayCorrector

namespace EssayCorrector

/-- `splitAtFirst cl s` splits `s` at the first occurrence of `cl`, returning
the part before it and the part after it. -/
def splitAtFirst (cl : Char) : Str → Option (Str × Str)
  | [] => none
  | c :: rest =>
    if c = cl then some ([], rest)
    else (splitAtFirst cl rest).map (fun p => (c :: p.1, p.2))

/-- The scan of `re.findall` with a non-greedy bracket pattern such as
`\[[\s\S]*?\]`: find the next opening character, match up to the nearest
closing character, and continue after the match (matches do not overlap).  If
no closing character follows any later opening character the scan yields no
further match.  The fuel argument makes the recursion structural; each step
consumes at least one character, so fuel equal to the initial length never
runs out. -/
def findAllGo (op cl : Char) : Nat → Str → List Str
  | 0, _ => []
  | _, [] => []
  | fuel + 1, c :: rest =>
    if c = op then
      match splitAtFirst cl rest with
      | some (inside, rest2) => (op :: (inside ++ [cl])) :: findAllGo op cl fuel rest2
      | none => []
    else findAllGo op cl fuel rest

/-- `re.findall` for the two bracket patterns used by `process_paragraph`. -/
def findAllNonGreedy (op cl : Char) (s : Str) : List Str := findAllGo op cl s.length s

/-- Result of one worker (`Corrector.correct.process_paragraph`): either the
extracted JSON text for the segment, or a failure (the Python worker catches
every exception and returns a string starting with `处理错误`, which the merge
step skips). -/
inductive WorkerResult where
  | ok (content : Str)
  | err
deriving DecidableEq

/-- Python `'key' in item` for a parsed JSON object. -/
def hasKey (k : Str) : JVal → Bool
  | .jobj fs => fs.any (fun kv => kv.1 == k)
  | _ => false

/-- `isinstance(item, dict) and 'theorigin' in item and 'corrected' in item`. -/
def isValidItem (v : JVal) : Bool :=
  hasKey (("theorigin").toList) v && hasKey (("corrected").toList) v

/-- The worker's acceptance test for a candidate match: a non-empty JSON array
all of whose elements are valid items (`isinstance(test_json, list)` and the
`all(...)` check of lines 164-165). -/
def isNonEmptyValidArr (v : JVal) : Bool :=
  match v with
  | .jarr items => !items.isEmpty && items.all isValidItem
  | _ => false

/-- Python `str.find(c)` as an optional index. -/
def pyFindIdx (c : Char) (s : Str) : Option Nat := s.findIdx? (· = c)

/-- Python `str.rfind(c)` as an optional index. -/
def pyRFindIdx (c : Char) (s : Str) : Option Nat :=
  (s.reverse.findIdx? (· = c)).map (fun k => s.length - 1 - k)

/-- The JSON-extraction logic of `process_paragraph` (lines 142-196): find
non-greedy `[...]` matches (falling back to brace-delimited matches), accept
the first candidate that parses to a non-empty array of valid items; otherwise
salvage the text between the first `[` and the last `]` of the stripped
response and require it to parse as JSON.  Any failure is the worker's
failure result.  The final `startswith("请求失败")` test of line 195 is applied
to the extracted content, mirroring the source. -/
def extractContent (resp : Str) : WorkerResult :=
  let ms0 := findAllNonGreedy '[' ']' resp
  let ms := if ms0.isEmpty then findAllNonGreedy lbrace rbrace resp else ms0
  if ms.isEmpty then .err
  else
    match ms.find? (fun m =>
        match pyJsonLoads m with
        | some v => isNonEmptyValidArr v
        | none => false) with
    | some m => if List.isPrefixOf (("请求失败").toList) m then .err else .ok m
    | none =>
      let cleaned := pyStrip resp
      match pyFindIdx '[' cleaned, pyRFindIdx ']' cleaned with
      | some i, some j =>
        if i < j then
          let sub := (cleaned.drop i).take (j + 1 - i)
          if (pyJsonLoads sub).isSome then
            if List.isPrefixOf (("请求失败").toList) sub then .err else .ok sub
          else .err
        else .err
      | _, _ => .err

/-- One worker: a raised client exception (network or upstream error) or any
extraction failure becomes the worker's failure result; no exception escapes
the worker. -/
def process_paragraph (client : Except Unit Str) : WorkerResult :=
  match client with
  | .error _ => .err
  | .ok resp => extractContent resp

/-- The merge step's treatment of one slot of `corrected_paragraphs`
(lines 261-313): unfilled (`None`) slots and failure strings are skipped;
otherwise the content is stripped, wrapped in brackets when they are missing,
parsed as JSON, a bare object is wrapped into a one-element list, and the
valid items are kept. -/
def segmentItems (slot : Option WorkerResult) : List JVal :=
  match slot with
  | none => []
  | some .err => []
  | some (.ok s) =>
    let c0 := pyStrip s
    let c1 := if List.isPrefixOf (['[']) c0 then c0 else '[' :: c0
    let c2 := if List.isSuffixOf ([']']) c1 then c1 else c1 ++ [']']
    match pyJsonLoads c2 with
    | none => []
    | some (.jarr items) => items.filter isValidItem
    | some (.jobj fs) => [JVal.jobj fs].filter isValidItem
    | some _ => []

/-- The pre-allocated result list `corrected_paragraphs = [None] * len(...)`,
filled by the completed futures in completion order (`order`); the worker for
index `idx` writes exactly slot `idx`. -/
def fillSlots (n : Nat) (w : Nat → WorkerResult) (order : List Nat) :
    List (Option WorkerResult) :=
  order.foldl (fun slots idx => slots.set idx (some (w idx))) (List.replicate n none)

/-- The merge of lines 260-313: iterate the slots in index order and
concatenate each slot's valid items. -/
def mergeCorrections (slots : List (Option WorkerResult)) : List JVal :=
  (slots.map segmentItems).flatten

/-- The two fatal errors `correct()` can raise itself: the
`ValueError("文档处理失败...")` of line 121 when document processing returned
`None`, and the `ValueError("所有段落的JSON解析都失败了...")` of line 317. -/
inductive CorrectError where
  | processFailed
  | allSegmentsFailed
deriving DecidableEq

/-- `Corrector.correct` over an already-processed document: `paragraphs?` is
the result of `dataProcessor.process()` (`none` models Python `None`),
`client i` the outcome of the client call for segment `i`, and `order` the
completion order of the workers.  The final check of line 316 raises exactly
when no correction was produced and the paragraph list is non-empty (truthy). -/
def correct (paragraphs? : Option (List Str)) (client : Nat → Except Unit Str)
    (order : List Nat) : Except CorrectError (List JVal) :=
  match paragraphs? with
  | none => .error .processFailed
  | some ps =>
    let slots := fillSlots ps.length (fun i => process_paragraph (client i)) order
    let allCorrections := mergeCorrections slots
    if allCorrections.isEmpty ∧ ¬ ps.isEmpty then .error .allSegmentsFailed
    else .ok allCorrections

/-- `round(x, 2)` on rationals: the float computation of the source idealised
over ℚ (Mathlib's `round` is round-half-up; the tie-breaking mode is never
exercised by the properties proved here). -/
def pyRound2 (x : ℚ) : ℚ := (round (x * 100) : ℚ) / 100

/-- One progress event pushed to the callback (lines 238-245 and 250-257). -/
structure ProgressEvent where
  progress : ℚ
  elapsed : ℤ
  estimated : ℤ
  current : Nat
  total : Nat
deriving DecidableEq

/-- The event sent after the `k`-th completed worker (1-based), with
`elapsedAt k` the elapsed seconds at that moment. -/
def midEvent (n : Nat) (elapsedAt : Nat → ℚ) (k : Nat) : ProgressEvent :=
  { progress := pyRound2 ((k : ℚ) / (n : ℚ) * 100)
    elapsed := round (elapsedAt k)
    estimated := round ((elapsedAt k / (k : ℚ)) * ((n : ℚ) - (k : ℚ)))
    current := k
    total := n }

/-- The final event of lines 248-257: progress `100`, estimated time `0`. -/
def finalEvent (n : Nat) (elapsedFinal : ℚ) : ProgressEvent :=
  { progress := 100, elapsed := round elapsedFinal, estimated := 0
    current := n, total := n }

/-- The events pushed during one run: one per completed future, then the
final event; nothing is sent when the callback or the task id is unset. -/
def progressEvents (n : Nat) (completions : Nat) (elapsedAt : Nat → ℚ)
    (elapsedFinal : ℚ) (callbackSet : Bool) : List ProgressEvent :=
  if callbackSet then
    (List.range completions).map (fun k => midEvent n elapsedAt (k + 1)) ++
      [finalEvent n elapsedFinal]
  else []

/-- A full run: the progress events it pushes and its outcome.  When document
processing returned `None` the exception of line 121 is raised before any
event is sent. -/
def correctRun (paragraphs? : Option (List Str)) (client : Nat → Except Unit Str)
    (order : List Nat) (elapsedAt : Nat → ℚ) (elapsedFinal : ℚ)
    (callbackSet : Bool) : List ProgressEvent × Except CorrectError (List JVal) :=
  match paragraphs? with
  | none => ([], .error .processFailed)
  | some ps =>
    (progressEvents ps.length order.length elapsedAt elapsedFinal callbackSet,
     correct (some ps) client order)

/-- Number of Correction Client invocations of one run: `executor.submit` is
called once per paragraph and each worker calls `AISolver.get_response`
exactly once. -/
def clientCalls (paragraphs? : Option (List Str)) : Nat :=
  match paragraphs? with
  | none => 0
  | some ps => ps.length

end EssayCorrector

namespace EssayCorrector

/-- `MAX_CHARS_PER_PARAGRAPH` of src/config.py: the default character budget
for paragraph merging (the value is environment-configurable, so the merging
functions below take the budget as a parameter and this constant instantiates
the default). -/
def MAX_CHARS_PER_PARAGRAPH : Nat := 3000

/-- The accumulation loop of `DocumentProcessor.combine_paragraphs`
(lines 78-125): `acc` is `combined_paragraphs`, `cur` is `current_combined`
and `cnt` is `current_char_count`.  Note that `cnt` counts only the lengths of
the accumulated paragraphs, not the `" "` separators inserted between them. -/
def combineGo (maxChars : Nat) : List Str → List Str → Str → Nat → List Str
  | [], acc, cur, _ => if cur.isEmpty then acc else acc ++ [cur]
  | p :: rest, acc, cur, cnt =>
    if (pyStrip p).isEmpty then combineGo maxChars rest acc cur cnt
    else if maxChars < cnt + p.length ∧ ¬ cur.isEmpty then
      combineGo maxChars rest (acc ++ [cur]) p p.length
    else
      combineGo maxChars rest acc (if cur.isEmpty then p else cur ++ ' ' :: p)
        (cnt + p.length)

/-- `DocumentProcessor.combine_paragraphs`. -/
def combine_paragraphs (maxChars : Nat) (paragraphs : List Str) : List Str :=
  combineGo maxChars paragraphs [] [] 0

/-- Steps 1-10 of `DocumentProcessor.preprocess_text` for one paragraph:
`.ok none` means the paragraph is skipped, `.ok (some c)` that the cleaned
paragraph `c` is kept, and `.error ()` the uncaught `IndexError` that
`paragraph[-1]` raises when steps 4-6 left the paragraph empty. -/
def cleanParagraph (p0 : Str) : Except Unit (Option Str) :=
  let p1 := pyStrip p0
  if p1.isEmpty then .ok none
  else if p1.length < 5 then .ok none
  else
    let p2 := collapseSpaces p1
    let p3 := p2.filter (fun c => !isCtrlChar c)
    let p4 := dedupPunct p3
    if isPureDigitLine p4 then .ok none
    else if isSepLine p4 then .ok none
    else if isUrlLike p4 then .ok none
    else
      match p4.getLast? with
      | none => .error ()
      | some c => .ok (some (if c ∈ terminatorSet then p4 else p4 ++ ['。']))

/-- The first loop of `preprocess_text` (lines 142-180): the list
`cleaned_paragraphs`, or the uncaught exception of the first paragraph that
raises. -/
def collectCleaned : List Str → Except Unit (List Str)
  | [] => .ok []
  | p :: rest => do
    let c? ← cleanParagraph p
    let cs ← collectCleaned rest
    match c? with
    | none => .ok cs
    | some c => .ok (c :: cs)

/-- Python `a in b` on strings: `a` occurs contiguously inside `b`. -/
def isSubstring (a b : Str) : Bool :=
  (List.range (b.length + 1)).any (fun i => List.isPrefixOf a (b.drop i))

/-- Python `a in b or b in a` on strings: the duplicate test of line 188. -/
def subRelated (a b : Str) : Bool := isSubstring a b || isSubstring b a

/-- The duplicate-filter loop of `preprocess_text` (lines 182-193): `kept` is
`unique_paragraphs`; a paragraph related by substring containment to any
already-kept paragraph is dropped. -/
def dedupGo (kept : List Str) : List Str → List Str
  | [] => []
  | p :: rest =>
    if kept.any (fun e => subRelated p e) then dedupGo kept rest
    else p :: dedupGo (kept ++ [p]) rest

/-- `DocumentProcessor.preprocess_text`. -/
def preprocess_text (paragraphs : List Str) : Except Unit (List Str) := do
  let cleaned ← collectCleaned paragraphs
  .ok (dedupGo [] cleaned)

/-- The segment list delivered to the Orchestrator: `process()` combines the
loaded paragraphs and then preprocesses them (e.g. lines 347-361 of
src/core/data_processor.py, identical in every format subclass). -/
def segmentsOf (maxChars : Nat) (paragraphs : List Str) : Except Unit (List Str) :=
  preprocess_text (combine_paragraphs maxChars paragraphs)

end EssayCorrector

namespace EssayCorrector

/-- Index-order concatenation of the per-segment correction items: the
specification's description of the merge ("iterate outcomes in index order
... append its parsed Correction Items").  The order-independence claims
compare `correct` runs against this completion-order-free expression. -/
def indexOrderMerge (ps : List Str) (client : Nat → Except Unit Str) : List JVal :=
  ((List.range ps.length).map
    (fun i => segmentItems (some (process_paragraph (client i))))).flatten

/-- Total character count of a group of paragraphs. -/
def sumLens (block : List Str) : Nat := (block.map List.length).sum

/-- Join a group of paragraphs with single spaces, the way
`combine_paragraphs` accumulates `current_combined`. -/
def joinSp : List Str → Str
  | [] => []
  | [p] => p
  | p :: rest => p ++ ' ' :: joinSp rest

end EssayCorrector

namespace EssayCorrector

theorem fillSlots_zero (w : Nat → WorkerResult) (order : List Nat) :
    fillSlots 0 w order = [] := by
  unfold fillSlots
  induction order with
  | nil => rfl
  | cons j rest ih =>
    simpa [List.foldl_cons] using ih

/-- Claim C1 (the source of the bug): a one-segment run whose model response
is the explicitly-empty correction list `"[]"` is a parse success for the
worker and contributes zero items, yet `correct()` raises the
`ValueError("所有段落的JSON解析都失败了...")` of line 317 — although not all
segments failed — instead of returning the valid empty result. -/
theorem C1_empty_success_still_raises :
    process_paragraph (.ok (("[]").toList)) = .ok (("[]").toList)
    ∧ segmentItems (some (.ok (("[]").toList))) = []
    ∧ correct (some [("初始文本表述需要润色。").toList])
        (fun _ => .ok (("[]").toList)) [0] = .error .allSegmentsFailed :=
  ⟨rfl, rfl, rfl⟩

/-- Claim C2, counterexample: over an empty segment list `correct()` raises
nothing at all — it returns an empty result (and the client is never
invoked), contradicting the claim that it fails with `NoSegmentsError`. -/
theorem C2_counterexample :
    correct (some []) (fun _ => .error ()) [] = .ok []
    ∧ clientCalls (some []) = 0 :=
  ⟨rfl, rfl⟩

/-- Claim C2 as amended: when the Segmenter yields an empty segment sequence,
`correct()` returns an empty correction list without raising and the
Correction Client is never invoked; an error (`ValueError("文档处理失败...")`)
is raised — before any client call — only when document processing returned
`None`. -/
theorem C2_empty_segments_ok :
    ∀ (client : Nat → Except Unit Str) (order : List Nat),
      correct (some []) client order = .ok []
      ∧ clientCalls (some []) = 0
      ∧ correct none client order = .error .processFailed := by
  intro client order
  refine ⟨?_, rfl, rfl⟩
  show correct (some []) client order = .ok []
  simp [correct, fillSlots_zero, mergeCorrections]

/-- Claim C8 (the source of the bug): a response whose only recoverable
structure is one well-formed record object with both the `theorigin` and the
`corrected` field is nevertheless a worker failure — the brace-delimited
fallback candidates of line 151 can never pass the `isinstance(test_json,
list)` test of line 164, and the salvage pass of lines 179-187 requires array
brackets — so the segment contributes nothing (and a one-segment run even
raises), instead of the record being wrapped into a one-element sequence. -/
theorem C8_bare_object_is_failure :
    pyJsonLoads (("\x7b\"theorigin\":\"原句有误\",\"corrected\":\"原句已修正\"\x7d").toList)
      = some (JVal.jobj
          [((("theorigin").toList), JVal.jstr (("原句有误").toList)),
           ((("corrected").toList), JVal.jstr (("原句已修正").toList))])
    ∧ isValidItem (JVal.jobj
          [((("theorigin").toList), JVal.jstr (("原句有误").toList)),
           ((("corrected").toList), JVal.jstr (("原句已修正").toList))]) = true
    ∧ process_paragraph
        (.ok (("\x7b\"theorigin\":\"原句有误\",\"corrected\":\"原句已修正\"\x7d").toList)) = .err
    ∧ correct (some [("需要纠错的段落。").toList])
        (fun _ => .ok (("\x7b\"theorigin\":\"原句有误\",\"corrected\":\"原句已修正\"\x7d").toList))
        [0] = .error .allSegmentsFailed :=
  ⟨rfl, rfl, rfl, rfl⟩

/-- Claim C10 (the source of the bug): `preprocess_text` is not total — a
paragraph of five control characters survives `strip()` and the length-5
check, is emptied by the control-character removal of step 5, and then
`paragraph[-1]` raises an uncaught `IndexError`. -/
theorem C10_crash_on_control_chars :
    preprocess_text [List.replicate 5 (Char.ofNat 1)] = .error () := rfl

/-- Claim C7, counterexample: with the character budget configured to `10`,
two in-budget paragraphs (lengths 6 and 4, summing to exactly the budget) are
merged into one segment of length 12 — `combine_paragraphs` counts only the
paragraph lengths, not the inserted `" "` separator, and `preprocess_text`
appends a terminator — so a delivered segment exceeds the budget although no
single input paragraph does. -/
theorem C7_counterexample :
    segmentsOf 10 [("aaaaaa").toList, ("aaaa").toList] = .ok [("aaaaaa aaaa。").toList]
    ∧ 10 < (("aaaaaa aaaa。").toList).length
    ∧ (("aaaaaa").toList).length ≤ 10
    ∧ (("aaaa").toList).length ≤ 10 :=
  ⟨rfl, by decide, by decide, by decide⟩

/-- Claim C9, counterexample: on the cleaned list `[c1, c2, c3]` with
`c1 = "abcde。"`, `c2 = "abcde。fghij。"`, `c3 = "fghij。"`, the filter keeps
`c1`, drops `c2` (related to the kept `c1`), and then keeps `c3` — even
though `c3` is a substring of the earlier paragraph `c2`.  So for the related
pair `(c2, c3)` it is the later paragraph, not the earlier one, that is
kept. -/
theorem C9_counterexample :
    collectCleaned [("abcde。").toList, ("abcde。fghij。").toList, ("fghij。").toList]
      = .ok [("abcde。").toList, ("abcde。fghij。").toList, ("fghij。").toList]
    ∧ preprocess_text [("abcde。").toList, ("abcde。fghij。").toList, ("fghij。").toList]
      = .ok [("abcde。").toList, ("fghij。").toList]
    ∧ isSubstring (("fghij。").toList) (("abcde。fghij。").toList) = true
    ∧ (("abcde。fghij。").toList) ∉ [("abcde。").toList, ("fghij。").toList]
    ∧ (("fghij。").toList) ∈ [("abcde。").toList, ("fghij。").toList] :=
  ⟨rfl, rfl, by decide, by decide, by decide⟩

end EssayCorrector

namespace EssayCorrector

theorem foldl_set_getElem? (w : Nat → WorkerResult) (order : List Nat)
    (init : List (Option WorkerResult)) (i : Nat) :
    (order.foldl (fun s idx => s.set idx (some (w idx))) init)[i]? =
      if i ∈ order ∧ i < init.length then some (some (w i)) else init[i]? := by
  induction order generalizing init with
  | nil => simp
  | cons j rest ih =>
    simp only [List.foldl_cons]
    rw [ih]
    simp only [List.length_set, List.getElem?_set, List.mem_cons]
    by_cases hmem : i ∈ rest
    · by_cases hlen : i < init.length
      · simp [hmem, hlen]
      · simp only [hmem, hlen, and_false, if_false, and_true, or_true, if_true]
        by_cases hij : j = i
        · simp [hij, hlen, List.getElem?_eq_none (le_of_not_lt hlen)]
        · simp [hij]
    · simp only [hmem, false_and, if_false, or_false]
      by_cases hij : j = i
      · by_cases hlen : i < init.length
        · simp [hij, hlen]
        · simp [hij, hlen, List.getElem?_eq_none (le_of_not_lt hlen)]
      · have : ¬ (i = j) := fun h => hij h.symm
        simp [hij, this]

theorem fillSlots_getElem? (n : Nat) (w : Nat → WorkerResult) (order : List Nat)
    (i : Nat) :
    (fillSlots n w order)[i]? =
      if i ∈ order ∧ i < n then some (some (w i))
      else if i < n then some none else none := by
  unfold fillSlots
  rw [foldl_set_getElem?]
  simp only [List.length_replicate, List.getElem?_replicate]

theorem fillSlots_eq_map (n : Nat) (w : Nat → WorkerResult) (order : List Nat)
    (hcover : ∀ i < n, i ∈ order) :
    fillSlots n w order = (List.range n).map (fun i => some (w i)) := by
  apply List.ext_getElem?
  intro i
  rw [fillSlots_getElem?]
  by_cases hi : i < n
  · simp [hcover i hi, hi, List.getElem?_range hi]
  · have hnone : (List.range n)[i]? = none :=
      List.getElem?_eq_none (by simpa [List.length_range] using le_of_not_lt hi)
    simp [hi, hnone]

theorem mem_fillSlots (n : Nat) (w : Nat → WorkerResult) (order : List Nat)
    (x : Option WorkerResult) (hx : x ∈ fillSlots n w order) :
    x = none ∨ ∃ i, i ∈ order ∧ i < n ∧ x = some (w i) := by
  obtain ⟨i, hi⟩ := List.mem_iff_getElem?.mp hx
  rw [fillSlots_getElem?] at hi
  by_cases hc : i ∈ order ∧ i < n
  · rw [if_pos hc] at hi
    right
    refine ⟨i, hc.1, hc.2, ?_⟩
    injection hi with h
    exact h.symm
  · rw [if_neg hc] at hi
    by_cases hn : i < n
    · rw [if_pos hn] at hi
      left
      injection hi with h
      exact h.symm
    · rw [if_neg hn] at hi
      cases hi

theorem correct_ok_of_cover (ps : List Str) (client : Nat → Except Unit Str)
    (order : List Nat)
    (hcover : ∀ i < ps.length, i ∈ order)
    (hsome : indexOrderMerge ps client ≠ []) :
    correct (some ps) client order = .ok (indexOrderMerge ps client) := by
  have hslots := fillSlots_eq_map ps.length
    (fun i => process_paragraph (client i)) order hcover
  have hmerge : mergeCorrections
      (fillSlots ps.length (fun i => process_paragraph (client i)) order)
      = indexOrderMerge ps client := by
    rw [hslots]
    simp [mergeCorrections, indexOrderMerge, List.map_map, Function.comp_def]
  show (if (mergeCorrections (fillSlots ps.length
          (fun i => process_paragraph (client i)) order)).isEmpty ∧ ¬ ps.isEmpty
        then (.error .allSegmentsFailed : Except CorrectError (List JVal))
        else .ok (mergeCorrections (fillSlots ps.length
          (fun i => process_paragraph (client i)) order)))
      = .ok (indexOrderMerge ps client)
  rw [hmerge]
  rw [if_neg (by simp [List.isEmpty_iff, hsome])]

end EssayCorrector

namespace EssayCorrector

/-- Claim C3, counterexample: two segments whose corrections both succeed
(the worker parses each response `"[]"` successfully), yet `correct()` does
not return the concatenation of the parsed item lists (which is empty): it
raises the `ValueError` of line 317 instead. -/
theorem C3_counterexample :
    process_paragraph (.ok (("[]").toList)) ≠ .err
    ∧ correct (some [("第一段落的文字。").toList, ("第二段落的文字。").toList])
        (fun _ => .ok (("[]").toList)) [0, 1] = .error .allSegmentsFailed :=
  ⟨by decide, rfl⟩

/-- Claim C3 as amended: for every non-empty segment sequence in which every
segment's correction succeeds and at least one correction item is produced
overall, the output of `correct()` is `indexOrderMerge` — the concatenation,
in segment index order, of each segment's parsed Correction Items — for
every completion order of the workers (the right-hand side does not mention
`order`). -/
theorem C3_merge_index_order (ps : List Str) (client : Nat → Except Unit Str)
    (order : List Nat)
    (hne : ps ≠ [])
    (hok : ∀ i < ps.length, process_paragraph (client i) ≠ .err)
    (hperm : order.Perm (List.range ps.length))
    (hsome : indexOrderMerge ps client ≠ []) :
    correct (some ps) client order = .ok (indexOrderMerge ps client) :=
  correct_ok_of_cover ps client order
    (fun i hi => hperm.mem_iff.mpr (List.mem_range.mpr hi)) hsome

/-- Witness for C3: a two-segment run whose workers complete in reverse
order still merges in index order. -/
theorem C3_witness :
    correct (some [("段落甲的内容。").toList, ("段落乙的内容。").toList])
        (fun i => if i = 0
          then (.ok (("[\x7b\"theorigin\":\"甲\",\"corrected\":\"乙\"\x7d]").toList)
            : Except Unit Str)
          else .ok (("[\x7b\"theorigin\":\"丙\",\"corrected\":\"丁\"\x7d]").toList))
        [1, 0]
      = .ok (indexOrderMerge [("段落甲的内容。").toList, ("段落乙的内容。").toList]
          (fun i => if i = 0
            then (.ok (("[\x7b\"theorigin\":\"甲\",\"corrected\":\"乙\"\x7d]").toList)
              : Except Unit Str)
            else .ok (("[\x7b\"theorigin\":\"丙\",\"corrected\":\"丁\"\x7d]").toList))) :=
  C3_merge_index_order _ _ _ (by decide) (by decide) (by decide)
    (fun h => absurd (congrArg List.length h) (by decide))

/-- Claim C5: when some segments fail (a raised network/upstream exception or
an unparsable response) and at least one segment succeeds with a non-empty
parsed correction list, `correct()` returns exactly the index-order
concatenation of the per-segment items — failed segments contribute nothing
— without raising.  Each failure is captured by the worker itself
(`process_paragraph` is a total function into `WorkerResult`; no exception
propagates past it). -/
theorem C5_partial_failure (ps : List Str) (client : Nat → Except Unit Str)
    (order : List Nat)
    (hfailsome : ∃ i, i < ps.length ∧ process_paragraph (client i) = .err)
    (hoksome : ∃ i, i < ps.length ∧
        segmentItems (some (process_paragraph (client i))) ≠ [])
    (hperm : order.Perm (List.range ps.length)) :
    correct (some ps) client order = .ok (indexOrderMerge ps client) := by
  apply correct_ok_of_cover ps client order
    (fun i hi => hperm.mem_iff.mpr (List.mem_range.mpr hi))
  obtain ⟨i, hi, hne⟩ := hoksome
  intro h
  unfold indexOrderMerge at h
  have hmem : segmentItems (some (process_paragraph (client i)))
      ∈ (List.range ps.length).map
          (fun j => segmentItems (some (process_paragraph (client j)))) :=
    List.mem_map.mpr ⟨i, List.mem_range.mpr hi, rfl⟩
  exact hne (List.flatten_eq_nil_iff.mp h _ hmem)

/-- Witness for C5: segment 0's client call raises (network failure), segment
1 succeeds with one item; the run returns only segment 1's item. -/
theorem C5_witness :
    correct (some [("段落一的内容。").toList, ("段落二的内容。").toList])
        (fun i => if i = 0 then (.error () : Except Unit Str)
          else .ok (("[\x7b\"theorigin\":\"戊\",\"corrected\":\"己\"\x7d]").toList))
        [0, 1]
      = .ok (indexOrderMerge [("段落一的内容。").toList, ("段落二的内容。").toList]
          (fun i => if i = 0 then (.error () : Except Unit Str)
            else .ok (("[\x7b\"theorigin\":\"戊\",\"corrected\":\"己\"\x7d]").toList))) :=
  C5_partial_failure _ _ _
    ⟨0, by decide, by decide⟩
    ⟨1, by decide, fun h => absurd (congrArg List.length h) (by decide)⟩
    (by decide)

/-- Claim C6: over a non-empty segment list where every worker's outcome is a
failure (so zero correction items are produced), `correct()` raises the
`ValueError` of line 317, and only after all workers have finished: the full
progress-event sequence — one event per completed worker plus the final
`100%` event — has been pushed before the error is raised. -/
theorem C6_all_failed (ps : List Str) (client : Nat → Except Unit Str)
    (order : List Nat) (elapsedAt : Nat → ℚ) (elapsedFinal : ℚ)
    (hne : ps ≠ [])
    (hfail : ∀ i < ps.length, process_paragraph (client i) = .err)
    (hperm : order.Perm (List.range ps.length)) :
    (correctRun (some ps) client order elapsedAt elapsedFinal true).2
      = .error .allSegmentsFailed
    ∧ (correctRun (some ps) client order elapsedAt elapsedFinal true).1.length
      = ps.length + 1 := by
  constructor
  · have hmerge : mergeCorrections
        (fillSlots ps.length (fun i => process_paragraph (client i)) order) = [] := by
      unfold mergeCorrections
      apply List.flatten_eq_nil_iff.mpr
      intro l hl
      obtain ⟨x, hx, rfl⟩ := List.mem_map.mp hl
      rcases mem_fillSlots _ _ _ _ hx with h0 | ⟨i, _, hin, rfl⟩
      · rw [h0]; rfl
      · rw [hfail i hin]; rfl
    show (if (mergeCorrections (fillSlots ps.length
            (fun i => process_paragraph (client i)) order)).isEmpty ∧ ¬ ps.isEmpty
          then (.error .allSegmentsFailed : Except CorrectError (List JVal))
          else .ok (mergeCorrections (fillSlots ps.length
            (fun i => process_paragraph (client i)) order)))
        = .error .allSegmentsFailed
    rw [hmerge]
    exact if_pos ⟨rfl, by simp [List.isEmpty_iff, hne]⟩
  · show (progressEvents ps.length order.length elapsedAt elapsedFinal true).length
        = ps.length + 1
    unfold progressEvents
    simp [hperm.length_eq]

/-- Witness for C6: a one-segment run whose response has no recoverable
structure fails with the all-segments-failed error after pushing both its
progress events. -/
theorem C6_witness :
    (correctRun (some [("测试段落的内容。").toList])
        (fun _ => .ok (("响应里没有任何括号结构").toList)) [0] (fun _ => 0) 0 true).2
      = .error .allSegmentsFailed
    ∧ (correctRun (some [("测试段落的内容。").toList])
        (fun _ => .ok (("响应里没有任何括号结构").toList)) [0] (fun _ => 0) 0 true).1.length
      = 2 :=
  C6_all_failed _ _ _ _ _ (by decide) (by decide) (by decide)

end EssayCorrector

namespace EssayCorrector

theorem round_mono_rat {x y : ℚ} (h : x ≤ y) : round x ≤ round y := by
  rw [round_eq, round_eq]
  exact Int.floor_mono (by linarith)

theorem pyRound2_mono {x y : ℚ} (h : x ≤ y) : pyRound2 x ≤ pyRound2 y := by
  unfold pyRound2
  have h1 : round (x * 100) ≤ round (y * 100) :=
    round_mono_rat (by linarith)
  have h2 : ((round (x * 100) : ℤ) : ℚ) ≤ ((round (y * 100) : ℤ) : ℚ) := by
    exact_mod_cast h1
  linarith

theorem pyRound2_100 : pyRound2 100 = 100 := by
  unfold pyRound2
  norm_num

theorem midProgress_mono (n : Nat) {a b : Nat} (hab : a < b) :
    pyRound2 (((a + 1 : Nat) : ℚ) / (n : ℚ) * 100)
      ≤ pyRound2 (((b + 1 : Nat) : ℚ) / (n : ℚ) * 100) := by
  apply pyRound2_mono
  rcases Nat.eq_zero_or_pos n with h0 | hp
  · simp [h0]
  · have hn : (0 : ℚ) < (n : ℚ) := by exact_mod_cast hp
    have hc : ((a + 1 : Nat) : ℚ) ≤ ((b + 1 : Nat) : ℚ) := by
      exact_mod_cast Nat.succ_le_succ (le_of_lt hab)
    gcongr

theorem midProgress_le_100 (n k : Nat) (hk : k < n) :
    pyRound2 (((k + 1 : Nat) : ℚ) / (n : ℚ) * 100) ≤ 100 := by
  have hn : (0 : ℚ) < (n : ℚ) := by
    have hp : 0 < n := by omega
    exact_mod_cast hp
  have h1 : ((k + 1 : Nat) : ℚ) ≤ (n : ℚ) := by
    exact_mod_cast Nat.succ_le_of_lt hk
  have harg : ((k + 1 : Nat) : ℚ) / (n : ℚ) * 100 ≤ 100 := by
    have hdiv : ((k + 1 : Nat) : ℚ) / (n : ℚ) ≤ 1 := (div_le_one hn).mpr h1
    nlinarith
  calc pyRound2 (((k + 1 : Nat) : ℚ) / (n : ℚ) * 100) ≤ pyRound2 100 :=
        pyRound2_mono harg
    _ = 100 := pyRound2_100

end EssayCorrector

namespace EssayCorrector

/-- Claim C4: in every run with the progress callback and task id set, the
reported progress sequence is non-decreasing, the event after the `k`-th
completed worker carries exactly `round(100 * completed / total, 2)`, and the
last event carries exactly `100` with estimated remaining time `0`. -/
theorem C4_progress (ps : List Str) (client : Nat → Except Unit Str)
    (order : List Nat) (elapsedAt : Nat → ℚ) (elapsedFinal : ℚ)
    (hperm : order.Perm (List.range ps.length)) :
    ((correctRun (some ps) client order elapsedAt elapsedFinal true).1.map
        ProgressEvent.progress).Pairwise (· ≤ ·)
    ∧ (∀ k, k < ps.length →
        ((correctRun (some ps) client order elapsedAt elapsedFinal true).1.map
            ProgressEvent.progress)[k]? =
          some (pyRound2 (100 * ((k + 1 : Nat) : ℚ) / (ps.length : ℚ))))
    ∧ (∃ e, (correctRun (some ps) client order elapsedAt elapsedFinal true).1.getLast?
          = some e ∧ e.progress = 100 ∧ e.estimated = 0) := by
  have hlen : order.length = ps.length := by
    simpa [List.length_range] using hperm.length_eq
  have hevs : (correctRun (some ps) client order elapsedAt elapsedFinal true).1
      = (List.range ps.length).map (fun k => midEvent ps.length elapsedAt (k + 1))
        ++ [finalEvent ps.length elapsedFinal] := by
    show progressEvents ps.length order.length elapsedAt elapsedFinal true = _
    unfold progressEvents
    rw [hlen]
    simp
  rw [hevs]
  refine ⟨?_, ?_, ?_⟩
  · rw [List.map_append, List.map_map]
    apply List.pairwise_append.mpr
    refine ⟨?_, ?_, ?_⟩
    · apply List.pairwise_map.mpr
      apply (List.pairwise_lt_range ps.length).imp
      intro a b hab
      exact midProgress_mono ps.length (by omega)
    · simp
    · intro x hx y hy
      obtain ⟨k, hk, rfl⟩ := List.mem_map.mp hx
      have hy100 : y = 100 := by
        simp only [List.map_cons, List.map_nil, List.mem_singleton] at hy
        exact hy
      rw [hy100]
      exact midProgress_le_100 ps.length k (List.mem_range.mp hk)
  · intro k hk
    rw [List.map_append, List.map_map]
    rw [List.getElem?_append]
    rw [if_pos (by simpa using hk)]
    rw [List.getElem?_map, List.getElem?_range hk]
    show some (pyRound2 (((k + 1 : Nat) : ℚ) / (ps.length : ℚ) * 100)) = _
    congr 1
    unfold pyRound2
    congr 1
    ring
  · exact ⟨finalEvent ps.length elapsedFinal, List.getLast?_concat _, rfl, rfl⟩

/-- Witness for C4: a run over one segment with completion order `[0]`. -/
theorem C4_witness :
    ((correctRun (some [("见证段落的文本。").toList]) (fun _ => .error ()) [0]
        (fun _ => 0) 0 true).1.map ProgressEvent.progress).Pairwise (· ≤ ·)
    ∧ (∀ k, k < 1 →
        ((correctRun (some [("见证段落的文本。").toList]) (fun _ => .error ()) [0]
            (fun _ => 0) 0 true).1.map ProgressEvent.progress)[k]? =
          some (pyRound2 (100 * ((k + 1 : Nat) : ℚ) / ((1 : Nat) : ℚ))))
    ∧ (∃ e, (correctRun (some [("见证段落的文本。").toList]) (fun _ => .error ()) [0]
          (fun _ => 0) 0 true).1.getLast? = some e
        ∧ e.progress = 100 ∧ e.estimated = 0) :=
  C4_progress [("见证段落的文本。").toList] (fun _ => .error ()) [0]
    (fun _ => 0) 0 (by decide)

end EssayCorrector

namespace EssayCorrector

theorem pyStrip_length_le (s : Str) : (pyStrip s).length ≤ s.length := by
  unfold pyStrip
  calc ((s.dropWhile pyIsSpace).reverse.dropWhile pyIsSpace).reverse.length
      = ((s.dropWhile pyIsSpace).reverse.dropWhile pyIsSpace).length := by
        rw [List.length_reverse]
    _ ≤ (s.dropWhile pyIsSpace).reverse.length :=
        (List.dropWhile_sublist _).length_le
    _ = (s.dropWhile pyIsSpace).length := by rw [List.length_reverse]
    _ ≤ s.length := (List.dropWhile_sublist _).length_le

theorem squashRuns_cons_cons (pred : Char → Bool) (rep a b : Char) (rest2 : Str) :
    squashRuns pred rep (a :: b :: rest2) =
      if pred a then
        (if pred b then squashRuns pred rep (b :: rest2)
         else rep :: squashRuns pred rep (b :: rest2))
      else a :: squashRuns pred rep (b :: rest2) := rfl

theorem squashRuns_length_le (pred : Char → Bool) (rep : Char) :
    ∀ s : Str, (squashRuns pred rep s).length ≤ s.length := by
  intro s
  induction s with
  | nil => simp [squashRuns]
  | cons a rest ih =>
    cases rest with
    | nil =>
      by_cases hp : pred a <;> simp [squashRuns, hp]
    | cons b rest2 =>
      rw [squashRuns_cons_cons]
      by_cases hp : pred a
      · by_cases hq : pred b
        · rw [if_pos hp, if_pos hq]
          exact le_trans ih (by simp)
        · rw [if_pos hp, if_neg hq]
          simpa using ih
      · rw [if_neg hp]
        simpa using ih

theorem dedupPunct_cons_cons (a b : Char) (rest2 : Str) :
    dedupPunct (a :: b :: rest2) =
      if a = b ∧ a ∈ dupPunctSet then dedupPunct (b :: rest2)
      else a :: dedupPunct (b :: rest2) := rfl

theorem dedupPunct_length_le : ∀ s : Str, (dedupPunct s).length ≤ s.length := by
  intro s
  induction s with
  | nil => simp [dedupPunct]
  | cons a rest ih =>
    cases rest with
    | nil => simp [dedupPunct]
    | cons b rest2 =>
      rw [dedupPunct_cons_cons]
      by_cases hc : a = b ∧ a ∈ dupPunctSet
      · rw [if_pos hc]
        exact le_trans ih (by simp)
      · rw [if_neg hc]
        simpa using ih

theorem cleanParagraph_length {q c : Str}
    (h : cleanParagraph q = .ok (some c)) : c.length ≤ q.length + 1 := by
  have hb : (dedupPunct ((collapseSpaces (pyStrip q)).filter
      (fun d => !isCtrlChar d))).length ≤ q.length := by
    calc (dedupPunct ((collapseSpaces (pyStrip q)).filter
          (fun d => !isCtrlChar d))).length
        ≤ ((collapseSpaces (pyStrip q)).filter (fun d => !isCtrlChar d)).length :=
          dedupPunct_length_le _
      _ ≤ (collapseSpaces (pyStrip q)).length := List.length_filter_le _ _
      _ ≤ (pyStrip q).length := squashRuns_length_le _ _ _
      _ ≤ q.length := pyStrip_length_le q
  simp only [cleanParagraph] at h
  split_ifs at h <;> try (exfalso; exact Option.noConfusion (Except.ok.inj h))
  split at h
  · exact Except.noConfusion h
  case _ d hg =>
    split_ifs at h with h6
    · have hc : dedupPunct ((collapseSpaces (pyStrip q)).filter
          (fun d => !isCtrlChar d)) = c := Option.some.inj (Except.ok.inj h)
      rw [← hc]
      omega
    · have hc : dedupPunct ((collapseSpaces (pyStrip q)).filter
          (fun d => !isCtrlChar d)) ++ ['。'] = c := Option.some.inj (Except.ok.inj h)
      rw [← hc]
      simp only [List.length_append, List.length_cons, List.length_nil]
      omega

end EssayCorrector

namespace EssayCorrector

theorem sumLens_append (b1 b2 : List Str) :
    sumLens (b1 ++ b2) = sumLens b1 + sumLens b2 := by
  simp [sumLens]

theorem combineGo_spec (maxC : Nat) (ps : List Str) :
    ∀ (l acc : List Str) (cur : Str) (cnt : Nat),
      (∀ b ∈ l, b ∈ ps) →
      (∀ q ∈ acc, ∃ block : List Str, block ≠ [] ∧ (∀ b ∈ block, b ∈ ps)
        ∧ (sumLens block ≤ maxC ∨ block.length = 1)
        ∧ q.length + 1 ≤ sumLens block + block.length) →
      ((cur = [] ∧ cnt = 0) ∨ (cur ≠ [] ∧ ∃ block : List Str, block ≠ []
        ∧ (∀ b ∈ block, b ∈ ps)
        ∧ cnt = sumLens block
        ∧ (sumLens block ≤ maxC ∨ block.length = 1)
        ∧ cur.length + 1 ≤ sumLens block + block.length)) →
      ∀ q ∈ combineGo maxC l acc cur cnt,
        ∃ block : List Str, block ≠ [] ∧ (∀ b ∈ block, b ∈ ps)
          ∧ (sumLens block ≤ maxC ∨ block.length = 1)
          ∧ q.length + 1 ≤ sumLens block + block.length := by
  intro l
  induction l with
  | nil =>
    intro acc cur cnt hl hacc hcur q hq
    simp only [combineGo] at hq
    by_cases hce : cur.isEmpty
    · rw [if_pos hce] at hq
      exact hacc q hq
    · rw [if_neg hce] at hq
      rcases List.mem_append.mp hq with hq1 | hq2
      · exact hacc q hq1
      · have hqe : q = cur := by simpa using hq2
        rcases hcur with ⟨he, _⟩ | ⟨_, block, h1, h2, _, h4, h5⟩
        · exact absurd (by simp [he, List.isEmpty_iff]) hce
        · exact ⟨block, h1, h2, h4, by rw [hqe]; exact h5⟩
  | cons p rest ih =>
    intro acc cur cnt hl hacc hcur q hq
    have hpps : p ∈ ps := hl p (by simp)
    have hlrest : ∀ b ∈ rest, b ∈ ps := fun b hb => hl b (by simp [hb])
    simp only [combineGo] at hq
    by_cases hblank : (pyStrip p).isEmpty
    · rw [if_pos hblank] at hq
      exact ih acc cur cnt hlrest hacc hcur q hq
    · rw [if_neg hblank] at hq
      have hpne : p ≠ [] := by
        intro he
        rw [he] at hblank
        exact hblank rfl
      by_cases hflush : maxC < cnt + p.length ∧ ¬ cur.isEmpty
      · rw [if_pos hflush] at hq
        refine ih (acc ++ [cur]) p p.length hlrest ?_ ?_ q hq
        · intro r hr
          rcases List.mem_append.mp hr with hr1 | hr2
          · exact hacc r hr1
          · have hre : r = cur := by simpa using hr2
            rcases hcur with ⟨he, _⟩ | ⟨_, block, h1, h2, _, h4, h5⟩
            · exact absurd (by simp [he, List.isEmpty_iff]) hflush.2
            · exact ⟨block, h1, h2, h4, by rw [hre]; exact h5⟩
        · right
          refine ⟨hpne, [p], by simp, by simpa using hpps, by simp [sumLens],
            Or.inr rfl, by simp [sumLens]⟩
      · rw [if_neg hflush] at hq
        by_cases hce : cur.isEmpty
        · have hcure : cur = [] := List.isEmpty_iff.mp hce
          have hcnt0 : cnt = 0 := by
            rcases hcur with ⟨_, h0⟩ | ⟨hne, _⟩
            · exact h0
            · exact absurd hcure hne
          have hie : (if cur.isEmpty then p else cur ++ ' ' :: p) = p := by
            rw [if_pos hce]
          rw [hie] at hq
          refine ih acc p (cnt + p.length) hlrest hacc ?_ q hq
          right
          refine ⟨hpne, [p], by simp, by simpa using hpps,
            by simp [sumLens, hcnt0], Or.inr rfl, by simp [sumLens]⟩
        · have hcurne : cur ≠ [] := by
            intro he
            exact hce (by simp [he, List.isEmpty_iff])
          rcases hcur with ⟨he, _⟩ | ⟨_, block, h1, h2, h3, h4, h5⟩
          · exact absurd he hcurne
          · have hbud : cnt + p.length ≤ maxC := by
              by_contra hgt
              exact hflush ⟨by omega, hce⟩
            have hie : (if cur.isEmpty then p else cur ++ ' ' :: p)
                = cur ++ ' ' :: p := by
              rw [if_neg hce]
            rw [hie] at hq
            refine ih acc (cur ++ ' ' :: p) (cnt + p.length) hlrest hacc ?_ q hq
            right
            refine ⟨by simp, block ++ [p], by simp, ?_, ?_, ?_, ?_⟩
            · intro b hb
              rcases List.mem_append.mp hb with hb1 | hb2
              · exact h2 b hb1
              · have hbp : b = p := by simpa using hb2
                rw [hbp]
                exact hpps
            · rw [sumLens_append, ← h3]
              simp [sumLens]
            · left
              rw [sumLens_append, ← h3]
              simpa [sumLens] using hbud
            · rw [sumLens_append, ← h3]
              simp only [List.length_append, List.length_cons, List.length_nil,
                sumLens, List.map_cons, List.map_nil, List.sum_cons, List.sum_nil]
              omega

theorem combine_paragraphs_spec (maxC : Nat) (ps : List Str) :
    ∀ q ∈ combine_paragraphs maxC ps,
      ∃ block : List Str, block ≠ [] ∧ (∀ b ∈ block, b ∈ ps)
        ∧ (sumLens block ≤ maxC ∨ block.length = 1)
        ∧ q.length + 1 ≤ sumLens block + block.length := by
  intro q hq
  exact combineGo_spec maxC ps ps [] [] 0 (fun b hb => hb) (by simp)
    (Or.inl ⟨rfl, rfl⟩) q hq

end EssayCorrector

namespace EssayCorrector

theorem collectCleaned_mem :
    ∀ {l cs : List Str}, collectCleaned l = .ok cs →
      ∀ c ∈ cs, ∃ q ∈ l, cleanParagraph q = .ok (some c) := by
  intro l
  induction l with
  | nil =>
    intro cs h c hc
    simp only [collectCleaned] at h
    cases h
    simp at hc
  | cons p rest ih =>
    intro cs h c hc
    simp only [collectCleaned] at h
    cases hq : cleanParagraph p with
    | error e =>
      rw [hq] at h
      exact Except.noConfusion h
    | ok c? =>
      rw [hq] at h
      cases hr : collectCleaned rest with
      | error e =>
        rw [hr] at h
        exact Except.noConfusion h
      | ok cs2 =>
        rw [hr] at h
        cases c? with
        | none =>
          have hcs : cs2 = cs := Except.ok.inj h
          obtain ⟨q, hqm, hqc⟩ := ih hr c (by rw [hcs]; exact hc)
          exact ⟨q, by simp [hqm], hqc⟩
        | some c0 =>
          have hcs : c0 :: cs2 = cs := Except.ok.inj h
          rw [← hcs] at hc
          rcases List.mem_cons.mp hc with hc1 | hc2
          · exact ⟨p, by simp, by rw [hq, hc1]⟩
          · obtain ⟨q, hqm, hqc⟩ := ih hr c hc2
            exact ⟨q, by simp [hqm], hqc⟩

theorem dedupGo_sublist : ∀ (kept l : List Str), (dedupGo kept l).Sublist l := by
  intro kept l
  induction l generalizing kept with
  | nil => simp [dedupGo]
  | cons p rest ih =>
    simp only [dedupGo]
    by_cases hd : kept.any (fun e => subRelated p e)
    · rw [if_pos hd]
      exact (ih kept).cons p
    · rw [if_neg hd]
      exact (ih (kept ++ [p])).cons₂ p

/-- Claim C7 as amended: every segment delivered by combining then
preprocessing derives from a non-empty group of input paragraphs whose total
character count stays within the budget unless the group is a single
paragraph, and the segment's length can exceed that total only by the
`" "` separators (one per extra group member) plus at most one appended
terminator: it is at most `sumLens block + block.length`.  (As stated, the
claim is false: `combine_paragraphs` compares only `sumLens` against the
budget, so the separators and the terminator can push a delivered segment
beyond the budget even when no single input paragraph exceeds it.) -/
theorem C7_budget_bound (maxC : Nat) (ps rs : List Str)
    (h : segmentsOf maxC ps = .ok rs) :
    ∀ r ∈ rs, ∃ block : List Str, block ≠ [] ∧ (∀ b ∈ block, b ∈ ps)
      ∧ (sumLens block ≤ maxC ∨ block.length = 1)
      ∧ r.length ≤ sumLens block + block.length := by
  intro r hr
  unfold segmentsOf preprocess_text at h
  cases hcc : collectCleaned (combine_paragraphs maxC ps) with
  | error e =>
    rw [hcc] at h
    exact Except.noConfusion h
  | ok cs =>
    rw [hcc] at h
    have hrs : dedupGo [] cs = rs := Except.ok.inj h
    have hrcs : r ∈ cs := by
      rw [← hrs] at hr
      exact List.Sublist.mem hr (dedupGo_sublist [] cs)
    obtain ⟨q, hqm, hqc⟩ := collectCleaned_mem hcc r hrcs
    have hrq : r.length ≤ q.length + 1 := cleanParagraph_length hqc
    obtain ⟨block, h1, h2, h3, h4⟩ := combine_paragraphs_spec maxC ps q hqm
    exact ⟨block, h1, h2, h3, by omega⟩

/-- Witness for C7: a single in-budget paragraph passes through as its own
one-element group. -/
theorem C7_witness :
    segmentsOf 3000 [("abcde。").toList] = .ok [("abcde。").toList]
    ∧ ∀ r ∈ [("abcde。").toList],
        ∃ block : List Str, block ≠ [] ∧ (∀ b ∈ block, b ∈ [("abcde。").toList])
          ∧ (sumLens block ≤ 3000 ∨ block.length = 1)
          ∧ r.length ≤ sumLens block + block.length :=
  ⟨rfl, C7_budget_bound 3000 [("abcde。").toList] [("abcde。").toList] rfl⟩

end EssayCorrector

namespace EssayCorrector

theorem subRelated_comm (a b : Str) : subRelated a b = subRelated b a := by
  unfold subRelated
  exact Bool.or_comm _ _

theorem dedupGo_not_rel_kept :
    ∀ (l kept : List Str), ∀ r ∈ dedupGo kept l, ∀ k ∈ kept,
      subRelated r k = false := by
  intro l
  induction l with
  | nil =>
    intro kept r hr
    simp [dedupGo] at hr
  | cons p rest ih =>
    intro kept r hr k hk
    simp only [dedupGo] at hr
    by_cases hd : kept.any (fun e => subRelated p e)
    · rw [if_pos hd] at hr
      exact ih kept r hr k hk
    · rw [if_neg hd] at hr
      rcases List.mem_cons.mp hr with hr1 | hr2
      · rw [hr1]
        have hall : ∀ e ∈ kept, subRelated p e = false := by
          simpa using hd
        exact hall k hk
      · exact ih (kept ++ [p]) r hr2 k (by simp [hk])

theorem dedupGo_pairwise :
    ∀ (l kept : List Str),
      (dedupGo kept l).Pairwise (fun a b => subRelated a b = false) := by
  intro l
  induction l with
  | nil =>
    intro kept
    simp [dedupGo]
  | cons p rest ih =>
    intro kept
    simp only [dedupGo]
    by_cases hd : kept.any (fun e => subRelated p e)
    · rw [if_pos hd]
      exact ih kept
    · rw [if_neg hd]
      refine List.Pairwise.cons ?_ (ih (kept ++ [p]))
      intro b hb
      have hbp := dedupGo_not_rel_kept rest (kept ++ [p]) b hb p (by simp)
      rw [subRelated_comm] at hbp
      exact hbp

/-- Claim C9 as amended: the list returned by `preprocess_text` contains no
paragraph that is a substring of another returned paragraph (in either
direction), and it is a subsequence of the cleaned list, so the relative
order of kept paragraphs is preserved; the kept list is exactly the greedy
filter `dedupGo [] cs`, which drops a cleaned paragraph precisely when it is
substring-related to some earlier KEPT paragraph.  (As stated, the claim is
false: when the earlier member of a related pair was itself dropped by a
still-earlier kept paragraph, the later member can be the one that is
kept.) -/
theorem C9_dedup_invariants (ps cs rs : List Str)
    (hc : collectCleaned ps = .ok cs)
    (h : preprocess_text ps = .ok rs) :
    rs.Sublist cs
    ∧ rs.Pairwise (fun a b => isSubstring a b = false ∧ isSubstring b a = false)
    ∧ rs = dedupGo [] cs := by
  have hrs : rs = dedupGo [] cs := by
    unfold preprocess_text at h
    rw [hc] at h
    exact (Except.ok.inj h).symm
  refine ⟨?_, ?_, hrs⟩
  · rw [hrs]
    exact dedupGo_sublist [] cs
  · rw [hrs]
    refine (dedupGo_pairwise cs []).imp ?_
    intro a b hab
    unfold subRelated at hab
    exact Bool.or_eq_false_iff.mp hab

/-- Witness for C9: two unrelated cleaned paragraphs are both kept, pairwise
substring-free and in order. -/
theorem C9_witness :
    ([("abcde。").toList, ("vwxyz。").toList] : List Str).Sublist
        [("abcde。").toList, ("vwxyz。").toList]
    ∧ ([("abcde。").toList, ("vwxyz。").toList] : List Str).Pairwise
        (fun a b => isSubstring a b = false ∧ isSubstring b a = false)
    ∧ ([("abcde。").toList, ("vwxyz。").toList] : List Str)
        = dedupGo [] [("abcde。").toList, ("vwxyz。").toList] :=
  C9_dedup_invariants [("abcde。").toList, ("vwxyz。").toList]
    [("abcde。").toList, ("vwxyz。").toList]
    [("abcde。").toList, ("vwxyz。").toList] rfl rfl

end EssayCorrector
